import Mathlib

/-!
Verification of the CNN/DailyMail data-generator module
(`tensor2tensor/data_generators/cnn_dailymail.py`).

The module's pure logic is embedded shallowly:
* story files are modelled as the list of their lines (file reading and
  UTF-8 decoding are I/O; the per-line `strip` is modelled by `pyStrip`);
* the SHA-1 digest from the external `hashlib` library is modelled as a
  function parameter `gh : String → String` of the split resolver;
* `tf.logging.info` calls are modelled by an explicit log component in
  `example_splits_with_log`;
* Python string primitives (`in`, `split`, `find`, slicing, `join`,
  `strip`, `startswith`) are embedded as executable functions on
  `String` / `List Char` with Python's semantics (e.g. negative indices
  in slices, `find` returning `-1`).
-/

namespace CnnDailymail

/-- Python `str.strip` whitespace test (ASCII whitespace). -/
def pyIsSpace (c : Char) : Bool :=
  c = ' ' || c = '\t' || c = '\n' || c = '\r' || c = '\x0b' || c = '\x0c'

/-- Python `line.strip()`: drop leading and trailing whitespace. -/
def pyStrip (s : String) : String :=
  String.mk (((s.toList.dropWhile pyIsSpace).reverse.dropWhile pyIsSpace).reverse)

/-- Python substring containment `pat in s`, on character lists. -/
def containsSeq : List Char → List Char → Bool
  | [], pat => pat.isPrefixOf []
  | c :: t, pat => pat.isPrefixOf (c :: t) || containsSeq t pat

/-- Python `s.split(sep)` for a one-character separator, on character lists. -/
def splitOnChar (sep : Char) : List Char → List (List Char)
  | [] => [[]]
  | c :: t =>
    let r := splitOnChar sep t
    if c = sep then [] :: r
    else
      match r with
      | [] => [[c]]
      | x :: xs => (c :: x) :: xs

/-- Python `f.split("/")[-1]`: the basename used as dictionary key in
`example_splits`. -/
def basename (f : String) : String :=
  String.mk ((splitOnChar '/' f.toList).getLastD [])

/-- Python `sep.join(xs)`. -/
def pyJoin (sep : String) : List String → String
  | [] => ""
  | [x] => x
  | x :: y :: t => x ++ sep ++ pyJoin sep (y :: t)

/-- Python `s.find(pat)` restricted to its successful side: the least
index at which `pat` occurs in `s`, if any. -/
def findSub (pat : List Char) : List Char → Option Nat
  | [] => if pat.isPrefixOf ([] : List Char) then some 0 else none
  | c :: t =>
    if pat.isPrefixOf (c :: t) then some 0
    else (findSub pat t).map (fun n => n + 1)

/-- Python slice `s[:p]`, with Python's negative-index and clamping rules. -/
def pySliceTo (s : List Char) (p : Int) : List Char :=
  let n : Int := s.length
  let q : Int := if p < 0 then max (n + p) 0 else min p n
  s.take q.toNat

/-- Python slice `s[p:]`, with Python's negative-index and clamping rules. -/
def pySliceFrom (s : List Char) (p : Int) : List Char :=
  let n : Int := s.length
  let q : Int := if p < 0 then max (n + p) 0 else min p n
  s.drop q.toNat

/-- Source: `dm_single_close_quote = u'’'`. -/
def dm_single_close_quote : String := "’"

/-- Source: `dm_double_close_quote = u'”'`. -/
def dm_double_close_quote : String := "”"

/-- Source: `END_TOKENS = ['.', '!', '?', '...', "'", "`", '"',
dm_single_close_quote, dm_double_close_quote, ")"]` — the acceptable ways
to end a sentence. -/
def END_TOKENS : List String :=
  [".", "!", "?", "...", "\x27", "\x60", "\"",
   dm_single_close_quote, dm_double_close_quote, ")"]

/-- Source: the local function `fix_run_on_sents` of `example_generator`:
lines containing `@highlight` and empty lines are returned unchanged, a
line whose last character (as a one-character string) is in `END_TOKENS`
is returned unchanged, and otherwise a period is appended. -/
def fix_run_on_sents (line : String) : String :=
  if containsSeq line.toList "@highlight".toList then line
  else if line = "" then line
  else if END_TOKENS.contains (String.mk [line.toList.getLastD ' ']) then line
  else line ++ "."

/-- The per-file parsing state of `example_generator`: the accumulated
`story` and `summary` line lists, the `reading_highlights` flag, and a
`broke` flag recording that the `break` statement has exited the
line loop (remaining lines are then ignored). -/
structure PState where
  story : List String
  summary : List String
  reading_highlights : Bool
  broke : Bool
deriving DecidableEq, Repr

/-- One iteration of the line loop of `example_generator`: strip and
normalize the line, skip empty lines, dispatch on
`line.startswith("@highlight")` (break when no body line has been
accumulated, else switch to highlights), and otherwise append the line
to `summary` or `story` according to `reading_highlights`. -/
def process_line (s : PState) (raw : String) : PState :=
  match s with
  | ⟨story, summary, reading_highlights, broke⟩ =>
    if broke then ⟨story, summary, reading_highlights, broke⟩ else
    let line := fix_run_on_sents (pyStrip raw)
    if line = "" then ⟨story, summary, reading_highlights, broke⟩
    else if "@highlight".toList.isPrefixOf line.toList then
      if story.length = 0 then ⟨story, summary, reading_highlights, true⟩
      else ⟨story, summary, true, broke⟩
    else if reading_highlights then ⟨story, summary ++ [line], reading_highlights, broke⟩
    else ⟨story ++ [line], summary, reading_highlights, broke⟩

/-- The initial per-file state: `story = []`, `summary = []`,
`reading_highlights = False`. -/
def init_state : PState := ⟨[], [], false, false⟩

/-- The state after the line loop of `example_generator` has processed
the given story-file lines. -/
def parse_state (lines : List String) : PState :=
  lines.foldl process_line init_state

/-- The string yielded by `example_generator` for one story file:
`" ".join(story) + u" <summary> " + " ".join(summary)`.  Note the yield
is outside the line loop, so it happens for every file, even one the
`break` statement aborted. -/
def parse_story (lines : List String) : String :=
  pyJoin " " (parse_state lines).story ++ " <summary> " ++
    pyJoin " " (parse_state lines).summary

/-- The sequence yielded by `example_generator`, as a function of the
contents (line lists) of the resolved story files, in resolver order.
Corpus download and file opening are I/O and are abstracted away. -/
def example_generator (files : List (List String)) : List String :=
  files.map parse_story

/-- The dictionary `all_files_map = {f.split("/")[-1]: f for f in
all_files}` of `example_splits`: built in iteration order, later entries
silently overwrite earlier ones on basename collision. -/
def all_files_map (all_files : List String) : String → Option String :=
  all_files.foldl (fun m f => fun k => if basename f == k then some f else m k)
    (fun _ => none)

/-- `example_splits`, with the `tf.logging.info` messages of its URL loop
made explicit: for each stripped manifest line, hash it with `gh`
(modelling `hashlib.sha1(url).hexdigest()`), append `".story"`, and
either log `"Missing file: <url>"` or append the mapped full path. -/
def example_splits_with_log (gh : String → String)
    (url_lines : List String) (all_files : List String) :
    List String × List String :=
  let m := all_files_map all_files
  let urls := url_lines.map pyStrip
  urls.foldl
    (fun acc url =>
      match m (gh url ++ ".story") with
      | none => (acc.1, acc.2 ++ ["Missing file: " ++ url])
      | some f => (acc.1 ++ [f], acc.2))
    ([], [])

/-- The file list returned by `example_splits`. -/
def example_splits (gh : String → String)
    (url_lines : List String) (all_files : List String) : List String :=
  (example_splits_with_log gh url_lines all_files).1

/-- Source `_story_summary_split`: find the first occurrence of
`" <summary> "` (Python `find` returns `-1` when absent) and slice the
input around it with Python slice semantics. -/
def _story_summary_split (story : String) : String × String :=
  let split_str : String := " <summary> "
  let split_str_len : Int := split_str.toList.length
  let split_pos : Int :=
    match findSub split_str.toList story.toList with
    | some n => (n : Int)
    | none => -1
  (String.mk (pySliceTo story.toList split_pos),
   String.mk (pySliceFrom story.toList (split_pos + split_str_len)))

/-- The manifest basename selected by `_maybe_download_corpora`:
`"all_train.txt"` when `is_training`, else `"all_val.txt"` (the rest of
that function is download/extraction I/O). -/
def urls_file_basename (is_training : Bool) : String :=
  if is_training then "all_train.txt" else "all_val.txt"

namespace SummarizeCnnDailymail32k

/-- Property `num_shards` of the registered problem. -/
def num_shards : Nat := 100

/-- Property `vocab_name` of the registered problem. -/
def vocab_name : String := "vocab.cnndailymail"

/-- Property `targeted_vocab_size` of the registered problem: `2**15`. -/
def targeted_vocab_size : Nat := 2 ^ 15

end SummarizeCnnDailymail32k

/-- The terminal-punctuation set as the spec's narrative lists it
(`.`, `!`, `?`, ellipsis — both the three-dot string and the single
ellipsis character readings — the curly close quotes, and the closing
parenthesis); used only to state what the spec claims, for comparison
with the source's `END_TOKENS`. -/
def END_TOKENS_claimed : List String :=
  [".", "!", "?", "...", "…", "’", "”", ")"]

/-- The set of characters that actually leave a nonempty,
non-sentinel line unchanged in `fix_run_on_sents`: the single-character
entries of `END_TOKENS` (the `"..."` entry can never equal a single
character, so it is dead for the last-character test). -/
def END_CHARS_amended : List Char :=
  ['.', '!', '?', '\x27', '\x60', '"', '’', '”', ')']

end CnnDailymail

namespace CnnDailymail

theorem toList_eq_data (s : String) : s.toList = s.data := rfl

theorem containsSeq_eq_true_iff {s pat : List Char} :
    containsSeq s pat = true ↔ pat <:+: s := by
  induction s with
  | nil => simp [containsSeq]
  | cons c t ih => simp [containsSeq, List.infix_cons_iff, ih, or_comm]

theorem containsSeq_of_isPrefixOf {s pat : List Char}
    (h : pat.isPrefixOf s = true) : containsSeq s pat = true := by
  cases s <;> simp_all [containsSeq]

theorem findSub_eq_none {s pat : List Char} :
    findSub pat s = none ↔ containsSeq s pat = false := by
  induction s with
  | nil =>
    cases hp : pat.isPrefixOf ([] : List Char) <;> simp [findSub, containsSeq, hp]
  | cons c t ih =>
    cases hp : pat.isPrefixOf (c :: t) <;> simp [findSub, containsSeq, hp, ih]

theorem mem_END_TOKENS_singleton (c : Char) :
    String.mk [c] ∈ END_TOKENS ↔ c ∈ END_CHARS_amended := by
  constructor
  · intro h
    simp only [END_TOKENS, dm_single_close_quote, dm_double_close_quote,
      List.mem_cons, List.not_mem_nil, or_false] at h
    rcases h with h|h|h|h|h|h|h|h|h|h <;>
      simp_all [String.ext_iff, END_CHARS_amended]
  · intro h
    simp only [END_CHARS_amended, List.mem_cons, List.not_mem_nil, or_false] at h
    rcases h with h|h|h|h|h|h|h|h|h <;> subst h <;> decide

theorem fix_run_on_sents_sentinel {line : String}
    (h : containsSeq line.toList "@highlight".toList = true) :
    fix_run_on_sents line = line := by
  unfold fix_run_on_sents
  rw [if_pos h]

theorem fix_run_on_sents_eq (line : String)
    (hc : containsSeq line.toList "@highlight".toList = false)
    (hne : line ≠ "") :
    fix_run_on_sents line =
      if line.toList.getLastD ' ' ∈ END_CHARS_amended then line
      else line ++ "." := by
  have h1 : ¬ containsSeq line.toList "@highlight".toList = true := by
    rw [hc]; simp
  have h2 : (END_TOKENS.contains (String.mk [line.toList.getLastD ' ']) = true)
      ↔ line.toList.getLastD ' ' ∈ END_CHARS_amended := by
    simp [List.contains, List.elem_iff, mem_END_TOKENS_singleton]
  unfold fix_run_on_sents
  rw [if_neg h1, if_neg hne]
  by_cases h : line.toList.getLastD ' ' ∈ END_CHARS_amended
  · rw [if_pos (h2.mpr h), if_pos h]
  · rw [if_neg (fun hh => h (h2.mp hh)), if_neg h]

theorem story_summary_split_none {s : String}
    (hf : findSub " <summary> ".toList s.toList = none) :
    _story_summary_split s =
      (String.mk (pySliceTo s.toList (-1)),
       String.mk (pySliceFrom s.toList 10)) := by
  simp only [_story_summary_split]
  rw [hf]
  rfl

theorem story_summary_split_some {s : String} {n : Nat}
    (hf : findSub " <summary> ".toList s.toList = some n) :
    _story_summary_split s =
      (String.mk (pySliceTo s.toList (n : Int)),
       String.mk (pySliceFrom s.toList ((n : Int) + 11))) := by
  simp only [_story_summary_split]
  rw [hf]
  rfl

theorem pySliceTo_neg_one (l : List Char) : pySliceTo l (-1) = l.dropLast := by
  simp only [pySliceTo]
  rw [List.dropLast_eq_take, if_pos (by omega : (-1 : Int) < 0)]
  congr 1
  omega

theorem pySliceTo_nonneg (l : List Char) (p : Int) (hp : 0 ≤ p) :
    pySliceTo l p = l.take p.toNat := by
  simp only [pySliceTo]
  rw [if_neg (by omega : ¬ p < 0)]
  rcases le_or_lt p (l.length : Int) with h | h
  · congr 1; omega
  · rw [show (min p (l.length : Int)).toNat = l.length by omega, List.take_length,
      List.take_of_length_le (by omega)]

theorem pySliceFrom_nonneg (l : List Char) (p : Int) (hp : 0 ≤ p) :
    pySliceFrom l p = l.drop p.toNat := by
  simp only [pySliceFrom]
  rw [if_neg (by omega : ¬ p < 0)]
  rcases le_or_lt p (l.length : Int) with h | h
  · congr 1; omega
  · rw [show (min p (l.length : Int)).toNat = l.length by omega, List.drop_length,
      List.drop_eq_nil_of_le (by omega)]

/-- C1: the claim says a story file whose highlight sentinel arrives
before any body line produces no output, so the yielded sequence only
counts successfully parsed files.  In the code the `yield` statement
sits outside the line loop, so the `break` (comment: "No article text")
does not suppress the yield: the aborted file still yields the
degenerate string `" <summary> "`, and the sequence length equals the
number of resolved files, aborted ones included. -/
theorem C1_aborted_file_still_yields :
    example_generator [["@highlight", "Only highlight"]] = [" <summary> "] ∧
    (∀ files : List (List String),
      (example_generator files).length = files.length) :=
  ⟨by decide, fun files => by simp [example_generator]⟩

/-- C3 counterexample: the line `"Hello'"` (straight single quote last)
is nonempty, contains no sentinel, and its last character is in none of
the claim's listed terminators, so the claim requires a period to be
appended; but the straight single quote is in the source's `END_TOKENS`,
so `fix_run_on_sents` returns the line unchanged. -/
theorem C3_counterexample :
    containsSeq "Hello\x27".toList "@highlight".toList = false ∧
    "Hello\x27" ≠ "" ∧
    END_TOKENS_claimed.contains (String.mk ["Hello\x27".toList.getLastD ' ']) = false ∧
    fix_run_on_sents "Hello\x27" = "Hello\x27" ∧
    fix_run_on_sents "Hello\x27" ≠ "Hello\x27" ++ "." := by decide

/-- C3 (amended): for every nonempty line without the sentinel,
`fix_run_on_sents` leaves the line unchanged exactly when its last
character is one of `.`, `!`, `?`, straight single quote, backtick,
straight double quote, curly single close quote, curly double close
quote, or closing parenthesis (the `"..."` entry of `END_TOKENS` can
never equal a single character), and otherwise appends a period; empty
lines and sentinel lines are unchanged; `"Hello world"` becomes
`"Hello world."`, `"Hello world!"` is unchanged, and a line ending in
the curly double close quote is unchanged. -/
theorem C3_fix_run_on_sents_amended :
    (∀ line : String,
      containsSeq line.toList "@highlight".toList = false → line ≠ "" →
      fix_run_on_sents line =
        if line.toList.getLastD ' ' ∈ END_CHARS_amended then line
        else line ++ ".")
    ∧ fix_run_on_sents "" = ""
    ∧ (∀ line : String, containsSeq line.toList "@highlight".toList = true →
        fix_run_on_sents line = line)
    ∧ fix_run_on_sents "Hello world" = "Hello world."
    ∧ fix_run_on_sents "Hello world!" = "Hello world!"
    ∧ fix_run_on_sents "Quote”" = "Quote”" :=
  ⟨fix_run_on_sents_eq, by decide,
   fun _ h => fix_run_on_sents_sentinel h, by decide, by decide, by decide⟩

/-- Witness for C3: the amended characterization applied to the concrete
line `"Ok"`. -/
theorem C3_witness :
    containsSeq "Ok".toList "@highlight".toList = false ∧ "Ok" ≠ "" ∧
    fix_run_on_sents "Ok" = "Ok" ++ "." := by
  refine ⟨by decide, by decide, ?_⟩
  rw [C3_fix_run_on_sents_amended.1 "Ok" (by decide) (by decide)]
  decide

/-- C4 counterexample: a line containing the sentinel at a position
other than the start does not trigger the transition: with one body line
accumulated, processing `"a @highlight"` appends the line to the body
and leaves `reading_highlights` false, instead of transitioning to the
Highlights state without storing it. -/
theorem C4_counterexample :
    containsSeq "a @highlight".toList "@highlight".toList = true ∧
    process_line ⟨["b."], [], false, false⟩ "a @highlight"
      = ⟨["b.", "a @highlight"], [], false, false⟩ ∧
    process_line ⟨["b."], [], false, false⟩ "a @highlight"
      ≠ ⟨["b."], [], true, false⟩ := by decide

/-- C4 (amended): every line containing the sentinel anywhere passes
through `fix_run_on_sents` unchanged; a stripped line that *starts with*
the sentinel, when at least one body line has been accumulated, moves
the parser to the Highlights state without being stored (idempotently:
the state is otherwise unchanged, for any current flag value); and the
parser never returns to the Body state afterwards. -/
theorem C4_highlight_lines_amended :
    (∀ line : String, containsSeq line.toList "@highlight".toList = true →
      fix_run_on_sents line = line)
    ∧ (∀ story summary : List String, ∀ rh : Bool, ∀ raw : String,
        story ≠ [] →
        "@highlight".toList.isPrefixOf (pyStrip raw).toList = true →
        process_line ⟨story, summary, rh, false⟩ raw = ⟨story, summary, true, false⟩)
    ∧ (∀ s : PState, ∀ raw : String, s.reading_highlights = true →
        (process_line s raw).reading_highlights = true) := by
  refine ⟨fun _ h => fix_run_on_sents_sentinel h, ?_, ?_⟩
  · intro story summary rh raw hst h
    have hfix : fix_run_on_sents (pyStrip raw) = pyStrip raw :=
      fix_run_on_sents_sentinel (containsSeq_of_isPrefixOf h)
    have hne : pyStrip raw ≠ "" := by
      intro hh
      rw [hh] at h
      simp [List.isPrefixOf] at h
    simp only [process_line]
    rw [if_neg (by simp), hfix, if_neg hne, if_pos h,
      if_neg (by simp [List.length_eq_zero, hst])]
  · intro s raw h
    obtain ⟨st, su, rh, br⟩ := s
    simp only [process_line]
    split_ifs <;> simp_all

/-- Witness for C4: the amended transition rule applied to the concrete
state `⟨["b."], [], false, false⟩` and line `"@highlight next"`. -/
theorem C4_witness :
    (["b."] : List String) ≠ [] ∧
    "@highlight".toList.isPrefixOf (pyStrip "@highlight next").toList = true ∧
    process_line ⟨["b."], [], false, false⟩ "@highlight next"
      = ⟨["b."], [], true, false⟩ := by
  refine ⟨by decide, by decide, ?_⟩
  exact C4_highlight_lines_amended.2.1 ["b."] [] false "@highlight next"
    (by decide) (by decide)

/-- C7: the four-line story file "Para one", "Para two", "@highlight",
"Summary line" parses to exactly
`"Para one. Para two. <summary> Summary line."`. -/
theorem C7_scenario :
    parse_story ["Para one", "Para two", "@highlight", "Summary line"]
      = "Para one. Para two. <summary> Summary line." := by decide

/-- C8: the registered problem declares a targeted vocabulary size of
32768 = 2^15, 100 output shards and vocabulary file name
"vocab.cnndailymail", and the corpus fetcher selects "all_train.txt"
when training and "all_val.txt" otherwise. -/
theorem C8_problem_metadata :
    SummarizeCnnDailymail32k.targeted_vocab_size = 32768 ∧
    SummarizeCnnDailymail32k.targeted_vocab_size = 2 ^ 15 ∧
    SummarizeCnnDailymail32k.num_shards = 100 ∧
    SummarizeCnnDailymail32k.vocab_name = "vocab.cnndailymail" ∧
    urls_file_basename true = "all_train.txt" ∧
    urls_file_basename false = "all_val.txt" :=
  ⟨by decide, rfl, rfl, rfl, rfl, rfl⟩

/-- C9: `_story_summary_split` is total (it is a Lean function), and on
any input without the separator, Python `find` returns `-1`, so the
story part is the input with its last character removed and the summary
part is the substring starting at index 10. -/
theorem C9_split_no_separator (s : String)
    (h : containsSeq s.toList " <summary> ".toList = false) :
    _story_summary_split s
      = (String.mk s.toList.dropLast, String.mk (s.toList.drop 10)) := by
  rw [story_summary_split_none (findSub_eq_none.mpr h), pySliceTo_neg_one,
    pySliceFrom_nonneg _ 10 (by omega)]
  rfl

/-- Witness for C9: splitting the separator-free string
`"abcdefghijkl"` drops its last character for the story part and starts
the summary part at index 10. -/
theorem C9_witness :
    containsSeq "abcdefghijkl".toList " <summary> ".toList = false ∧
    _story_summary_split "abcdefghijkl" = ("abcdefghijk", "kl") := by
  refine ⟨by decide, ?_⟩
  rw [C9_split_no_separator "abcdefghijkl" (by decide)]
  decide

/-- C10: every string yielded by `example_generator` is of the form
`body ++ " <summary> " ++ summary`, hence contains the separator, so
the first-occurrence search of `_story_summary_split` succeeds on
generator output. -/
theorem C10_yields_contain_separator (files : List (List String)) (s : String)
    (h : s ∈ example_generator files) :
    containsSeq s.toList " <summary> ".toList = true := by
  rcases List.mem_map.mp h with ⟨lines, _, rfl⟩
  refine containsSeq_eq_true_iff.mpr ?_
  refine ⟨(pyJoin " " (parse_state lines).story).toList,
          (pyJoin " " (parse_state lines).summary).toList, ?_⟩
  simp [parse_story, toList_eq_data]

/-- Witness for C10: the output of the empty story file contains the
separator. -/
theorem C10_witness :
    (" <summary> " ∈ example_generator [[]]) ∧
    containsSeq " <summary> ".toList " <summary> ".toList = true :=
  ⟨by decide, C10_yields_contain_separator [[]] " <summary> " (by decide)⟩

theorem map_foldl_apply (F : List String) (m₀ : String → Option String)
    (k : String) :
    (F.foldl (fun m f => fun k => if basename f == k then some f else m k) m₀) k
      = match F.reverse.find? (fun f => basename f == k) with
        | some f => some f
        | none => m₀ k := by
  induction F generalizing m₀ with
  | nil => simp
  | cons f t ih =>
    rw [List.foldl_cons, ih, List.reverse_cons, List.find?_append]
    cases hf : t.reverse.find? (fun g => basename g == k) with
    | some g => simp
    | none =>
      cases hpf : basename f == k <;> simp [List.find?_cons, hpf]

theorem all_files_map_apply (F : List String) (k : String) :
    all_files_map F k = F.reverse.find? (fun f => basename f == k) := by
  rw [all_files_map, map_foldl_apply]
  cases F.reverse.find? (fun f => basename f == k) <;> rfl

theorem all_files_map_eq_none_iff (F : List String) (k : String) :
    all_files_map F k = none ↔ k ∉ F.map basename := by
  rw [all_files_map_apply, List.find?_eq_none]
  constructor
  · intro hall hmem
    rcases List.mem_map.mp hmem with ⟨f, hf, hfk⟩
    exact hall f (List.mem_reverse.mpr hf) (by simp [hfk])
  · intro hnk f hf hfk
    apply hnk
    have hbk : basename f = k := by simpa using hfk
    rw [← hbk]
    exact List.mem_map_of_mem basename (List.mem_reverse.mp hf)

theorem find?_reverse_of_nodup {F : List String} {k : String}
    (h : (F.map basename).Nodup) :
    F.reverse.find? (fun f => basename f == k)
      = F.find? (fun f => basename f == k) := by
  induction F with
  | nil => simp
  | cons f t ih =>
    simp only [List.map_cons, List.nodup_cons] at h
    rw [List.reverse_cons, List.find?_append, ih h.2]
    cases hpf : basename f == k
    · rw [List.find?_cons_of_neg _ (by simp [hpf])]
      simp [hpf]
    · have hk : basename f = k := by simpa using hpf
      have hnone : t.find? (fun g => basename g == k) = none := by
        rw [List.find?_eq_none]
        intro g hg hgk
        apply h.1
        have hbg : basename g = k := by simpa using hgk
        rw [hk, ← hbg]
        exact List.mem_map_of_mem basename hg
      simp [hnone, List.find?_cons, hpf]

theorem splits_foldl (m : String → Option String) (gh : String → String)
    (urls : List String) (a b : List String) :
    urls.foldl
      (fun acc url =>
        match m (gh url ++ ".story") with
        | none => (acc.1, acc.2 ++ ["Missing file: " ++ url])
        | some f => (acc.1 ++ [f], acc.2)) (a, b)
    = (a ++ urls.filterMap (fun url => m (gh url ++ ".story")),
       b ++ urls.filterMap (fun url =>
         match m (gh url ++ ".story") with
         | none => some ("Missing file: " ++ url)
         | some _ => none)) := by
  induction urls generalizing a b with
  | nil => simp
  | cons u t ih =>
    rw [List.foldl_cons]
    cases hm : m (gh u ++ ".story") <;>
      simp [List.filterMap_cons, hm, ih]

theorem example_splits_with_log_eq (gh : String → String)
    (url_lines F : List String) :
    example_splits_with_log gh url_lines F
      = ((url_lines.map pyStrip).filterMap
           (fun url => all_files_map F (gh url ++ ".story")),
         (url_lines.map pyStrip).filterMap
           (fun url =>
             match all_files_map F (gh url ++ ".story") with
             | none => some ("Missing file: " ++ url)
             | some _ => none)) := by
  simp only [example_splits_with_log]
  rw [splits_foldl]
  simp

theorem length_filterMap_eq_countP {α β : Type} (g : α → Option β)
    (l : List α) :
    (l.filterMap g).length = l.countP (fun a => (g a).isSome) := by
  induction l with
  | nil => rfl
  | cons a t ih =>
    cases hg : g a <;> simp [List.filterMap_cons, hg, List.countP_cons, ih]

theorem countP_add_countP_not {α : Type} (p : α → Bool) (l : List α) :
    l.countP p + l.countP (fun a => !(p a)) = l.length := by
  induction l with
  | nil => rfl
  | cons a t ih =>
    cases hp : p a <;> simp [List.countP_cons, hp] <;> omega

/-- C2: `example_splits` returns, in manifest order, exactly the full
paths of those (stripped) manifest URLs whose hashed filename
`gh url ++ ".story"` occurs as a basename of the file list (the unique
such file under the no-collision hypothesis), and its length is the
manifest size minus the number of URLs whose hashed filename is absent
from the basename index.  `gh` models `hashlib.sha1(url).hexdigest()`,
an external library call. -/
theorem C2_split_resolver (gh : String → String) (url_lines F : List String)
    (hnd : (F.map basename).Nodup) :
    example_splits gh url_lines F
      = (url_lines.map pyStrip).filterMap
          (fun u => F.find? (fun f => basename f == gh u ++ ".story")) ∧
    (example_splits gh url_lines F).length
      = url_lines.length
        - (url_lines.map pyStrip).countP
            (fun u => !((F.map basename).contains (gh u ++ ".story"))) := by
  have happ : ∀ k, all_files_map F k = F.find? (fun f => basename f == k) :=
    fun k => (all_files_map_apply F k).trans (find?_reverse_of_nodup hnd)
  constructor
  · rw [example_splits, example_splits_with_log_eq]
    dsimp only
    rw [show (fun url => all_files_map F (gh url ++ ".story"))
        = (fun u => F.find? (fun f => basename f == gh u ++ ".story"))
      from funext fun u => happ _]
  · rw [example_splits, example_splits_with_log_eq]
    dsimp only
    have hpoint : ∀ u : String,
        (all_files_map F (gh u ++ ".story")).isSome
          = (F.map basename).contains (gh u ++ ".story") := by
      intro u
      rcases hcase : all_files_map F (gh u ++ ".story") with _ | f
      · have hmem := (all_files_map_eq_none_iff F _).mp hcase
        simp [List.contains, hmem]
      · have hmem : (gh u ++ ".story") ∈ F.map basename := by
          by_contra hno
          rw [← all_files_map_eq_none_iff F _] at hno
          rw [hcase] at hno
          exact Option.noConfusion hno
        simp [List.contains, List.elem_iff, hmem]
    have hlen : ((url_lines.map pyStrip).filterMap
          (fun url => all_files_map F (gh url ++ ".story"))).length
        = (url_lines.map pyStrip).countP
            (fun url => (all_files_map F (gh url ++ ".story")).isSome) :=
      length_filterMap_eq_countP _ _
    have hcount : (url_lines.map pyStrip).countP
          (fun u => (F.map basename).contains (gh u ++ ".story"))
        + (url_lines.map pyStrip).countP
            (fun u => !((F.map basename).contains (gh u ++ ".story")))
        = (url_lines.map pyStrip).length :=
      countP_add_countP_not _ _
    have hmaplen : (url_lines.map pyStrip).length = url_lines.length :=
      List.length_map _ _
    rw [hlen, show (fun url => (all_files_map F (gh url ++ ".story")).isSome)
        = (fun u => (F.map basename).contains (gh u ++ ".story"))
      from funext hpoint]
    omega

/-- Witness for C2: with the identity in place of the hash, manifest
`["a", "b"]` and single file `"x/a.story"`, the resolver returns that
file once and the length is the manifest size minus one missing URL. -/
theorem C2_witness :
    ((["x/a.story"] : List String).map basename).Nodup ∧
    (example_splits (fun u => u) ["a", "b"] ["x/a.story"]
      = ((["a", "b"] : List String).map pyStrip).filterMap
          (fun u => ["x/a.story"].find? (fun f => basename f == (fun u => u) u ++ ".story")) ∧
    (example_splits (fun u => u) ["a", "b"] ["x/a.story"]).length
      = (["a", "b"] : List String).length
        - ((["a", "b"] : List String).map pyStrip).countP
            (fun u => !(((["x/a.story"] : List String).map basename).contains
              ((fun u => u) u ++ ".story")))) :=
  ⟨by decide, C2_split_resolver (fun u => u) ["a", "b"] ["x/a.story"] (by decide)⟩

/-- C6: a manifest URL whose hashed filename is absent from the basename
index contributes nothing to the returned file list (all other URLs are
still resolved: removing the missing URL from the manifest leaves the
output unchanged) and produces the `"Missing file: <url>"` log entry;
`example_splits` is a total function, so no exception is raised. -/
theorem C6_missing_url_skipped (gh : String → String)
    (pre post F : List String) (lurl : String)
    (h : all_files_map F (gh (pyStrip lurl) ++ ".story") = none) :
    example_splits gh (pre ++ lurl :: post) F
      = example_splits gh (pre ++ post) F ∧
    ("Missing file: " ++ pyStrip lurl)
      ∈ (example_splits_with_log gh (pre ++ lurl :: post) F).2 := by
  constructor
  · rw [example_splits, example_splits, example_splits_with_log_eq,
      example_splits_with_log_eq]
    simp [List.filterMap_append, List.filterMap_cons, h]
  · rw [example_splits_with_log_eq]
    simp only [List.map_append, List.map_cons, List.filterMap_append,
      List.filterMap_cons, h]
    simp

theorem findSub_cons (pat : List Char) (c : Char) (t : List Char) :
    findSub pat (c :: t)
      = if pat.isPrefixOf (c :: t) then some 0
        else (findSub pat t).map (fun n => n + 1) := rfl

theorem findSub_of_isPrefixOf {pat s : List Char}
    (h : pat.isPrefixOf s = true) : findSub pat s = some 0 := by
  cases s <;> simp_all [findSub]

theorem findSub_append_of_no_prefix (pat S : List Char) :
    ∀ B : List Char,
      (∀ t, t <:+ B → t ≠ [] → ¬ (pat <+: (t ++ (pat ++ S)))) →
      findSub pat (B ++ (pat ++ S)) = some B.length := by
  intro B
  induction B with
  | nil =>
    intro _
    have h0 : pat.isPrefixOf (pat ++ S) = true := by simp
    simpa using findSub_of_isPrefixOf h0
  | cons c B' ih =>
    intro hno
    have hnp : ¬ pat.isPrefixOf (c :: (B' ++ (pat ++ S))) = true := by
      intro hp
      refine hno (c :: B') (List.suffix_refl _) (by simp) ?_
      have hp2 := List.isPrefixOf_iff_prefix.mp hp
      rwa [← List.cons_append] at hp2
    have hih := ih (fun t ht hne => hno t (ht.trans (List.suffix_cons c B')) hne)
    rw [List.cons_append, findSub_cons, if_neg hnp, hih]
    simp

theorem sep_no_straddle {B S : List Char}
    (h1 : containsSeq B " <summary> ".toList = false)
    (h2 : (" <summary>".toList).isSuffixOf B = false) :
    ∀ t, t <:+ B → t ≠ [] →
      ¬ (" <summary> ".toList <+: (t ++ (" <summary> ".toList ++ S))) := by
  intro t ht htne hpre
  have hsep11 : (" <summary> ".toList).length = 11 := by decide
  rcases le_or_lt 11 t.length with hlen | hlen
  · have hpt : " <summary> ".toList <+: t :=
      List.prefix_of_prefix_length_le hpre (List.prefix_append t _) (by omega)
    have hinf : " <summary> ".toList <:+: B := hpt.isInfix.trans ht.isInfix
    have hcon : containsSeq B " <summary> ".toList = true :=
      containsSeq_eq_true_iff.mpr hinf
    rw [h1] at hcon
    exact Bool.noConfusion hcon
  · have hn0 : 0 < t.length := List.length_pos.mpr htne
    have htp : t <+: " <summary> ".toList :=
      List.prefix_of_prefix_length_le (List.prefix_append t _) hpre (by omega)
    rcases htp with ⟨r, hr⟩
    have hrd : (" <summary> ".toList).drop t.length = r := by
      rw [← hr]
      exact List.drop_left t r
    have hr2 : r <+: (" <summary> ".toList ++ S) := by
      nth_rewrite 1 [← hr] at hpre
      exact (List.prefix_append_right_inj t).mp hpre
    have hrlen : r.length = 11 - t.length := by
      have hl := congrArg List.length hr
      rw [List.length_append, hsep11] at hl
      omega
    have hrpat : r <+: " <summary> ".toList :=
      List.prefix_of_prefix_length_le hr2 (List.prefix_append _ _) (by omega)
    have hrt : r = (" <summary> ".toList).take (11 - t.length) := by
      have h3 := List.prefix_iff_eq_take.mp hrpat
      rw [hrlen] at h3
      exact h3
    have hdt : (" <summary> ".toList).drop t.length
        = (" <summary> ".toList).take (11 - t.length) := by
      rw [hrd, hrt]
    have hn10 : t.length = 10 := by
      have hall : ∀ m : Fin 11, 0 < m.val →
          ((" <summary> ".toList).drop m.val
            = (" <summary> ".toList).take (11 - m.val)) →
          m.val = 10 := by decide
      exact hall ⟨t.length, hlen⟩ hn0 hdt
    have htt : t = " <summary>".toList := by
      have h4 : t = (" <summary> ".toList).take t.length := by
        have := List.prefix_iff_eq_take.mp ⟨r, hr⟩
        exact this
      rw [hn10] at h4
      rw [h4]
      decide
    have hsuf : (" <summary>".toList).isSuffixOf B = true := by
      rw [List.isSuffixOf_iff_suffix]
      exact htt ▸ ht
    rw [h2] at hsuf
    exact Bool.noConfusion hsuf

theorem split_join (B S : String)
    (h1 : containsSeq B.toList " <summary> ".toList = false)
    (h2 : (" <summary>".toList).isSuffixOf B.toList = false) :
    _story_summary_split (B ++ " <summary> " ++ S) = (B, S) := by
  have hsep11 : (" <summary> ".toList).length = 11 := by decide
  have hshape : (B ++ " <summary> " ++ S).toList
      = B.toList ++ (" <summary> ".toList ++ S.toList) := by
    simp [toList_eq_data]
  have hAB : (B ++ " <summary> " ++ S).toList
      = (B.toList ++ " <summary> ".toList) ++ S.toList := by
    simp [toList_eq_data]
  have hfind : findSub " <summary> ".toList (B ++ " <summary> " ++ S).toList
      = some B.toList.length := by
    rw [hshape]
    exact findSub_append_of_no_prefix _ _ _ (sep_no_straddle h1 h2)
  rw [story_summary_split_some hfind, Prod.ext_iff]
  constructor
  · show String.mk (pySliceTo (B ++ " <summary> " ++ S).toList
      ((B.toList.length : Int))) = B
    rw [pySliceTo_nonneg _ _ (by omega),
      show ((B.toList.length : Int)).toNat = B.toList.length by omega,
      hshape, List.take_left]
    rfl
  · show String.mk (pySliceFrom (B ++ " <summary> " ++ S).toList
      ((B.toList.length : Int) + 11)) = S
    rw [pySliceFrom_nonneg _ _ (by omega),
      show (((B.toList.length : Int)) + 11).toNat = B.toList.length + 11 by omega,
      hAB, List.drop_left' (by rw [List.length_append, hsep11])]
    rfl

/-- C5 counterexample: for the story file with body line
`"y @highlight x <summary>"` (stored unchanged, since it contains the
sentinel) the joined body does *not* contain the literal
`" <summary> "`, yet the first-occurrence split does not recover the
parser's body and highlights: the body's trailing `" <summary>"`
together with the separator's leading space forms an earlier
occurrence. -/
theorem C5_counterexample :
    containsSeq
        (pyJoin " " (parse_state
          ["y @highlight x <summary>", "@highlight", "Good."]).story).toList
        " <summary> ".toList = false ∧
    _story_summary_split
        (parse_story ["y @highlight x <summary>", "@highlight", "Good."])
      ≠ (pyJoin " " (parse_state
            ["y @highlight x <summary>", "@highlight", "Good."]).story,
         pyJoin " " (parse_state
            ["y @highlight x <summary>", "@highlight", "Good."]).summary) := by
  decide

/-- C5 (amended): for every parsed example whose joined body neither
contains the literal `" <summary> "` nor ends with the ten-character
string `" <summary>"`, `_story_summary_split` returns exactly the
joined body and the joined highlights: the first-occurrence split is a
left inverse of the parser's join under these conditions. -/
theorem C5_round_trip_amended (lines : List String)
    (h1 : containsSeq (pyJoin " " (parse_state lines).story).toList
        " <summary> ".toList = false)
    (h2 : (" <summary>".toList).isSuffixOf
        (pyJoin " " (parse_state lines).story).toList = false) :
    _story_summary_split (parse_story lines)
      = (pyJoin " " (parse_state lines).story,
         pyJoin " " (parse_state lines).summary) :=
  split_join _ _ h1 h2

/-- Witness for C5: the round trip on the story file "Para one",
"@highlight", "Summary line". -/
theorem C5_witness :
    containsSeq (pyJoin " " (parse_state
        ["Para one", "@highlight", "Summary line"]).story).toList
      " <summary> ".toList = false ∧
    (" <summary>".toList).isSuffixOf (pyJoin " " (parse_state
        ["Para one", "@highlight", "Summary line"]).story).toList = false ∧
    _story_summary_split (parse_story ["Para one", "@highlight", "Summary line"])
      = ("Para one.", "Summary line.") := by
  refine ⟨by decide, by decide, ?_⟩
  rw [C5_round_trip_amended ["Para one", "@highlight", "Summary line"]
    (by decide) (by decide)]
  decide

/-- Witness for C6: the URL `"u"` with an empty file list is logged as
missing and skipped. -/
theorem C6_witness :
    all_files_map [] ((fun u => u) (pyStrip "u") ++ ".story") = none ∧
    (example_splits (fun u => u) ([] ++ "u" :: []) []
      = example_splits (fun u => u) ([] ++ []) [] ∧
    ("Missing file: " ++ pyStrip "u")
      ∈ (example_splits_with_log (fun u => u) ([] ++ "u" :: []) []).2) :=
  ⟨by decide, C6_missing_url_skipped (fun u => u) [] [] [] "u" (by decide)⟩

end CnnDailymail
